import Mathlib

/- Verification development for the out-of-core point-cloud streaming engine.

   The C++ sources are shallowly embedded: float and double arithmetic is
   modelled over the rationals, machine integers (int, size_t, uint64_t) over
   Int and Nat, std::vector and std::list over List, and the per-block arrays
   over functions from Nat.  Fallible operations (list front on a possibly
   empty list) return Option.  Each embedded definition names the source
   function it came from. -/

namespace Raster

/-- Rational model of glm::vec3 (three packed floats). -/
structure Vec3 where
  x : ℚ
  y : ℚ
  z : ℚ
  deriving DecidableEq, Repr

/-- Point record as stored in block files (Point.h): position and color. -/
structure Point where
  pos : Vec3
  color : Vec3
  deriving DecidableEq, Repr

/-- Source PLY row (Point.h, struct FilePoint): three doubles and three
    unsigned-char color channels. -/
structure FilePoint where
  x : ℚ
  y : ℚ
  z : ℚ
  r : ℕ
  g : ℕ
  b : ℕ
  deriving DecidableEq, Repr

/-- Spatial block metadata (Block.h), with the member initializers of the
    source as Lean default field values. -/
structure Block where
  blockID : ℤ := -1
  count : ℤ := 0
  isVisible : Bool := false
  bb_min : Vec3 := ⟨0, 0, 0⟩
  bb_max : Vec3 := ⟨0, 0, 0⟩
  distanceToPlaneMin : ℚ := 0
  distanceToCameraCenter : ℚ := 0
  distanceToFrustumCenter : ℚ := 0
  vbo : ℕ := 0
  vao : ℕ := 0
  points : List Point := []
  deriving DecidableEq, Repr

/-- Slot status (Slot.h, enum Status). -/
inductive Status where
  | LOADED
  | LOADING
  | EMPTY
  deriving DecidableEq, Repr

/-- GPU slot binding (Slot.h), with the source's member initializers. -/
structure Slot where
  blockID : ℤ := -1
  count : ℤ := 0
  status : Status := .EMPTY
  vbo : ℕ := 0
  vao : ℕ := 0
  points : List Point := []
  deriving DecidableEq, Repr

instance : Inhabited Slot := ⟨{}⟩

/-- Job for the worker threads (Job.h).  The std::filesystem::path produced by
    DataManager::pathFor is determined by the block id it is formatted from
    ("block_%04d.bin"), so paths are modelled by their integer key. -/
structure Job where
  blockID : ℤ
  count : ℤ
  slotIdx : ℤ
  loadSubSlots : Bool
  path : ℤ
  deriving DecidableEq, Repr

/-- Result pushed back by a worker (Job.h). -/
structure Result where
  blockID : ℤ
  slotIdx : ℤ
  count : ℤ
  loadSubSlots : Bool
  points : List Point
  deriving DecidableEq, Repr

/- ===================== SubslotsCache (SubslotsCache.cpp) =====================

   The cache keeps a std::list of Slots ordered LRU first / MRU last plus an
   unordered_map from blockID to the list node.  The map's keys are exactly the
   blockIDs of the list nodes, so the pair is modelled by the list alone and
   map lookup by a search for the first node with the given blockID. -/

/-- Position of the first cached slot whose blockID matches (the model of
    where.find). -/
def findSlotIdx (blockID : ℤ) : List Slot → Option ℕ
  | [] => none
  | s :: rest =>
      if s.blockID = blockID then some 0
      else (findSlotIdx blockID rest).map (· + 1)

/-- LRU cache state: capacity (size_t member) and node list, LRU at the front,
    MRU at the back. -/
structure SubslotsCache where
  capacity : ℕ
  slots : List Slot
  deriving DecidableEq, Repr

/-- SubslotsCache::touch - splice the node with the given blockID to the MRU
    end, reporting whether it existed. -/
def SubslotsCache.touch (c : SubslotsCache) (blockID : ℤ) : Bool × SubslotsCache :=
  match findSlotIdx blockID c.slots with
  | none => (false, c)
  | some j =>
      (true, { c with slots := c.slots.eraseIdx j ++ [(c.slots.getD j default)] })

/-- SubslotsCache::put - insert or update a slot, returning the evicted slot
    when one is popped.  The value none models the undefined behavior of
    evaluating slots.front() / slots.pop_front() on an empty list, which the
    source reaches when the eviction branch is taken with an empty list. -/
def SubslotsCache.put (c : SubslotsCache) (s : Slot) :
    Option (Option Slot × SubslotsCache) :=
  match findSlotIdx s.blockID c.slots with
  | some j =>
      -- Update the existing entry in place and splice it to the MRU end.
      some (none, { c with slots := c.slots.eraseIdx j ++ [s] })
  | none =>
      if c.capacity ≤ c.slots.length then
        -- willEvict: read and pop the front (LRU) node first.
        match c.slots with
        | [] => none
        | front :: rest => some (some front, { c with slots := rest ++ [s] })
      else
        some (none, { c with slots := c.slots ++ [s] })

/-- SubslotsCache::extract - remove and return the entry with the given
    blockID. -/
def SubslotsCache.extract (c : SubslotsCache) (blockID : ℤ) :
    Option (Slot × SubslotsCache) :=
  match findSlotIdx blockID c.slots with
  | none => none
  | some j => some (c.slots.getD j default, { c with slots := c.slots.eraseIdx j })

/- ===================== Queue (Queue.h) =====================

   The blocking queue is modelled sequentially: its state is the pending FIFO
   list plus the stop flag, and pop has three outcomes - an item, the stopped
   and empty return of false, or blocking until another thread acts. -/

/-- State of Queue<T>: the pending items and the stop flag. -/
structure QState (T : Type) where
  q : List T
  stopped : Bool

/-- Outcome of Queue::pop. -/
inductive PopOutcome (T : Type) where
  | ret (v : T) (s : QState T)
  | retFalse (s : QState T)
  | blocked

/-- Queue::push - append at the back and wake a waiter. -/
def qpush {T : Type} (s : QState T) (v : T) : QState T :=
  { s with q := s.q ++ [v] }

/-- Queue::stop - set the stop flag and wake all waiters. -/
def qstop {T : Type} (s : QState T) : QState T :=
  { s with stopped := true }

/-- Queue::pop - wait until an item is present or stop was signalled; return
    false exactly when stopped with an empty queue, else deliver the front. -/
def qpop {T : Type} (s : QState T) : PopOutcome T :=
  match s.q with
  | [] => if s.stopped then .retFalse s else .blocked
  | v :: rest => .ret v { s with q := rest }

/-- The queue delivers exactly the given values in order and then returns
    false on the next pop. -/
def drains {T : Type} (s : QState T) : List T → Prop
  | [] => qpop s = .retFalse s
  | v :: rest => ∃ s2, qpop s = .ret v s2 ∧ drains s2 rest

/- ===================== Worker pool (DataManager.cpp) ===================== -/

/-- On-disk state: contents of each block file keyed by path, none when the
    file cannot be opened. -/
def DiskFS : Type := ℤ → Option (List Point)

/-- DataManager::loadBlock (the Result overload): open the block file, resize
    the point vector to count and read count * sizeof(Point) bytes; on an open
    failure or a short read the vector is cleared. -/
def loadBlockR (fs : DiskFS) (path : ℤ) (count : ℤ) (r : Result) : Result :=
  match fs path with
  | none => { r with points := [] }
  | some content =>
      if count.toNat ≤ content.length then { r with points := content.take count.toNat }
      else { r with points := [] }

/-- Per-job body of DataManager::workerMain: Result r; r.blockID = job.blockID;
    loadBlock(job.path, job.count, r).  The argument r0 stands for the
    default-constructed Result, whose int and bool members are indeterminate
    (struct Result has no member initializers) and whose vector is empty;
    workerMain assigns only blockID, and loadBlock only the point vector. -/
def workerStep (fs : DiskFS) (r0 : Result) (job : Job) : Result :=
  loadBlockR fs job.path job.count { r0 with blockID := job.blockID }

/-- One result per consumed job, over the whole pool (workerMain pushes
    exactly one Result for every Job it pops; completion order may vary, which
    no counting property depends on). -/
def workerRun (fs : DiskFS) (r0 : Result) (jobs : List Job) : List Result :=
  jobs.map (workerStep fs r0)

/- ===================== Slot table setup (Rasterizer::setupSlots) ========= -/

/-- C++ float-to-int cast: truncation toward zero. -/
def cppTruncQ (q : ℚ) : ℤ := if 0 ≤ q then ⌊q⌋ else ⌈q⌉

/-- The three quantities computed at the top of Rasterizer::setupSlots. -/
structure SlotConfig where
  num_slots : ℤ
  num_subSlots : ℤ
  num_points_per_slot : ℤ
  deriving DecidableEq, Repr

/-- Rasterizer::setupSlots lines computing num_slots, num_subSlots and
    num_points_per_slot: the first two are float products cast to int, the
    third is the unsigned integer quotient vertexCount / blocks.size() cast to
    int. -/
def setupSlotsConfig (slotFactor : ℚ) (numBlocks vertexCount : ℕ) : SlotConfig :=
  { num_slots := cppTruncQ (slotFactor * numBlocks)
  , num_subSlots := cppTruncQ ((1 / 2 : ℚ) * slotFactor * numBlocks)
  , num_points_per_slot := Int.ofNat (vertexCount / numBlocks) }

/- ===================== Partition pass (DataManager.cpp) ===================

   readPLY computes the global bbox over the float-converted coordinates;
   createBlocks initializes the 1000 block AABBs, then streams the vertices
   again, binning each into outBuf[id] and flushing buffers of FLUSH_POINTS
   points to the per-block files.  Reading in batches of BATCH rows does not
   change which points are processed or their order, so the batch loop is
   modelled as a single fold over the vertex list. -/

def GRID : ℕ := 10
def NUM_BLOCKS : ℕ := GRID * GRID * GRID
def FLUSH_POINTS : ℕ := 4096

/-- Largest finite float value; Rasterizer::setupDataManager seeds the global
    bbox with max() and lowest() of float. -/
def fltMax : ℚ := (2 ^ 24 - 1) * 2 ^ 104

/-- Utils.h clampi. -/
def clampi (v lo hi : ℤ) : ℤ := if v < lo then lo else if v > hi then hi else v

/-- DataManager::bboxExpand: componentwise running min and max. -/
def bboxExpand (p : Vec3) (mnmx : Vec3 × Vec3) : Vec3 × Vec3 :=
  let mn := mnmx.1
  let mx := mnmx.2
  (⟨if p.x < mn.x then p.x else mn.x,
    if p.y < mn.y then p.y else mn.y,
    if p.z < mn.z then p.z else mn.z⟩,
   ⟨if p.x > mx.x then p.x else mx.x,
    if p.y > mx.y then p.y else mx.y,
    if p.z > mx.z then p.z else mx.z⟩)

/-- Bbox pass of DataManager::readPLY over the float-converted vertex
    coordinates, from the initial max()/lowest() seeds. -/
def bboxPass (pts : List FilePoint) : Vec3 × Vec3 :=
  pts.foldl (fun acc fp => bboxExpand ⟨fp.x, fp.y, fp.z⟩ acc)
    (⟨fltMax, fltMax, fltMax⟩, ⟨-fltMax, -fltMax, -fltMax⟩)

/-- Cell extent: (bb_max - bb_min) / GRID (createBlocks). -/
def cellOf (bbmin bbmax : Vec3) : Vec3 :=
  ⟨(bbmax.x - bbmin.x) / 10, (bbmax.y - bbmin.y) / 10, (bbmax.z - bbmin.z) / 10⟩

/-- One axis of the bin computation in createBlocks:
    clampi((int)((p - bb_min) / cell), 0, 9). -/
def axisIdx (p mn cell : ℚ) : ℤ := clampi (cppTruncQ ((p - mn) / cell)) 0 9

/-- Bin index ix + 10 iy + 100 iz of createBlocks. -/
def binIndex (bbmin cell : Vec3) (fp : FilePoint) : ℤ :=
  axisIdx fp.x bbmin.x cell.x + 10 * axisIdx fp.y bbmin.y cell.y
    + 100 * axisIdx fp.z bbmin.z cell.z

/-- Conversion of a PLY row to a stored Point in createBlocks: coordinates
    narrowed to float, colors divided by 255. -/
def toPoint (fp : FilePoint) : Point :=
  ⟨⟨fp.x, fp.y, fp.z⟩, ⟨(fp.r : ℚ) / 255, (fp.g : ℚ) / 255, (fp.b : ℚ) / 255⟩⟩

/-- State of the partition pass: block metadata, in-memory output buffers and
    the bytes appended to each block file so far (as Point records). -/
structure PState where
  blocks : ℕ → Block
  outBuf : ℕ → List Point
  files : ℕ → List Point

/-- DataManager::flush(id): append the buffered points to the block file and
    clear the buffer; a no-op for an empty buffer. -/
def flushBuf (id : ℕ) (s : PState) : PState :=
  if s.outBuf id = [] then s
  else { s with
         files := Function.update s.files id (s.files id ++ s.outBuf id),
         outBuf := Function.update s.outBuf id [] }

/-- Per-vertex body of the partition loop in createBlocks: bin, buffer the
    converted point, bump the block's count, flush when the buffer reached
    FLUSH_POINTS. -/
def processPoint (bbmin cell : Vec3) (s : PState) (fp : FilePoint) : PState :=
  let id := (binIndex bbmin cell fp).toNat
  let s1 : PState :=
    { s with
      outBuf := Function.update s.outBuf id (s.outBuf id ++ [toPoint fp]),
      blocks := Function.update s.blocks id
        { s.blocks id with count := (s.blocks id).count + 1 } }
  if FLUSH_POINTS ≤ (s1.outBuf id).length then flushBuf id s1 else s1

/-- Block AABB initialization loop of createBlocks: block x + 10 y + 100 z
    covers [bb_min + (x,y,z) cell, bb_min + (x+1,y+1,z+1) cell]. -/
def initBlockBounds (bbmin cell : Vec3) (blocks : ℕ → Block) : ℕ → Block :=
  fun id =>
    if id < NUM_BLOCKS then
      let x : ℕ := id % 10
      let y : ℕ := (id / 10) % 10
      let z : ℕ := id / 100
      { blocks id with
        bb_min := ⟨bbmin.x + x * cell.x, bbmin.y + y * cell.y, bbmin.z + z * cell.z⟩,
        bb_max := ⟨bbmin.x + (x + 1) * cell.x, bbmin.y + (y + 1) * cell.y,
                   bbmin.z + (z + 1) * cell.z⟩ }
    else blocks id

/-- Final flush loop of createBlocks over every block id. -/
def flushAll (s : PState) : PState :=
  (List.range NUM_BLOCKS).foldl (fun s id => flushBuf id s) s

/-- DataManager::createBlocks: AABB grid setup, the binning pass over all
    vertices, and the final flush.  Block files start empty: init removes old
    .bin files and cache.get pre-creates each file. -/
def createBlocks (bbmin bbmax : Vec3) (pts : List FilePoint) (blocks0 : ℕ → Block) :
    PState :=
  let cell := cellOf bbmin bbmax
  let s0 : PState :=
    { blocks := initBlockBounds bbmin cell blocks0
    , outBuf := fun _ => []
    , files := fun _ => [] }
  flushAll (pts.foldl (processPoint bbmin cell) s0)

/-- The claim's axis formula: floor((p - bb_min) / cell) clamped to [0, 9]. -/
def claimAxisIdx (p mn cell : ℚ) : ℤ := clampi ⌊(p - mn) / cell⌋ 0 9

/-- The claim's bin formula ix + 10 iy + 100 iz over floor-based axis
    indices. -/
def claimBin (bbmin cell : Vec3) (fp : FilePoint) : ℤ :=
  claimAxisIdx fp.x bbmin.x cell.x + 10 * claimAxisIdx fp.y bbmin.y cell.y
    + 100 * claimAxisIdx fp.z bbmin.z cell.z

/-- The claim's per-vertex conversion: u8 color channels divided by 255. -/
def claimPoint (fp : FilePoint) : Point :=
  ⟨⟨fp.x, fp.y, fp.z⟩, ⟨(fp.r : ℚ) / 255, (fp.g : ℚ) / 255, (fp.b : ℚ) / 255⟩⟩

/-- Rasterizer::filterBlocks: drop blocks whose count is zero, keeping
    order. -/
def filterBlocks (l : List Block) : List Block :=
  l.filter (fun b => b.count != 0)

/-- The blocks vector of the Rasterizer after ingest: entry id of the
    per-block metadata array, for id in [0, NUM_BLOCKS). -/
def blockListOf (s : PState) : List Block :=
  (List.range NUM_BLOCKS).map s.blocks

/-- Fields of Block that DataManager::createBlocks never assigns; two blocks
    related by this predicate differ at most in bb_min, bb_max and count. -/
def sameExceptIngest (a b : Block) : Prop :=
  a.blockID = b.blockID ∧ a.isVisible = b.isVisible ∧
  a.distanceToPlaneMin = b.distanceToPlaneMin ∧
  a.distanceToCameraCenter = b.distanceToCameraCenter ∧
  a.distanceToFrustumCenter = b.distanceToFrustumCenter ∧
  a.vbo = b.vbo ∧ a.vao = b.vao ∧ a.points = b.points

/- ===================== Frustum cull (Rasterizer.cpp) ===================== -/

/-- Rational model of glm::vec4. -/
structure Vec4 where
  x : ℚ
  y : ℚ
  z : ℚ
  w : ℚ
  deriving DecidableEq, Repr

/-- Rational model of glm::mat4, by rows. -/
structure Mat4 where
  row0 : Vec4
  row1 : Vec4
  row2 : Vec4
  row3 : Vec4
  deriving DecidableEq, Repr

/-- Frustum plane (Plane.h): dot(n, x) + d at or above zero is inside. -/
structure Plane where
  n : Vec3
  d : ℚ
  deriving DecidableEq, Repr

/-- One row of view * vec4(v, 1). -/
def dotRow (r : Vec4) (v : Vec3) : ℚ := r.x * v.x + r.y * v.y + r.z * v.z + r.w

/-- glm::vec3 p = view * glm::vec4(corner, 1.0f): the affine transform of a
    point, the fourth component dropped by the vec3 conversion. -/
def transformPoint (m : Mat4) (v : Vec3) : Vec3 :=
  ⟨dotRow m.row0 v, dotRow m.row1 v, dotRow m.row2 v⟩

/-- Componentwise glm::min. -/
def vmin (a b : Vec3) : Vec3 := ⟨min a.x b.x, min a.y b.y, min a.z b.z⟩

/-- Componentwise glm::max. -/
def vmax (a b : Vec3) : Vec3 := ⟨max a.x b.x, max a.y b.y, max a.z b.z⟩

/-- The 8 world-space AABB corners in the order aabbIntersectsFrustum lists
    them. -/
def cornersOf (mn mx : Vec3) : List Vec3 :=
  [⟨mn.x, mn.y, mn.z⟩, ⟨mx.x, mn.y, mn.z⟩, ⟨mn.x, mx.y, mn.z⟩, ⟨mx.x, mx.y, mn.z⟩,
   ⟨mn.x, mn.y, mx.z⟩, ⟨mx.x, mn.y, mx.z⟩, ⟨mn.x, mx.y, mx.z⟩, ⟨mx.x, mx.y, mx.z⟩]

/-- View-space AABB of a block: transform the 8 corners and fold min and max
    from the FLT_MAX / -FLT_MAX seeds (aabbIntersectsFrustum). -/
def viewBox (view : Mat4) (b : Block) : Vec3 × Vec3 :=
  (cornersOf b.bb_min b.bb_max).foldl
    (fun acc c =>
      let p := transformPoint view c
      (vmin acc.1 p, vmax acc.2 p))
    (⟨fltMax, fltMax, fltMax⟩, ⟨-fltMax, -fltMax, -fltMax⟩)

/-- Positive vertex for a plane normal: per component bb_max when the normal
    component is at least zero, else bb_min. -/
def posVertex (n mn mx : Vec3) : Vec3 :=
  ⟨if 0 ≤ n.x then mx.x else mn.x,
   if 0 ≤ n.y then mx.y else mn.y,
   if 0 ≤ n.z then mx.z else mn.z⟩

/-- Signed distance dot(plane.n, p) + plane.d. -/
def planeDist (pl : Plane) (p : Vec3) : ℚ :=
  pl.n.x * p.x + pl.n.y * p.y + pl.n.z * p.z + pl.d

/-- The plane loop of aabbIntersectsFrustum: fold of
    minDist = std::min(dist, minDist) from the FLT_MAX seed, with dist taken
    at the positive vertex of the view-space AABB. -/
def minDistOf (planes : List Plane) (mn mx : Vec3) : ℚ :=
  planes.foldl (fun acc pl => min (planeDist pl (posVertex pl.n mn mx)) acc) fltMax

/-- Membership in the axis-aligned box [mn, mx]. -/
def inBox (mn mx p : Vec3) : Prop :=
  mn.x ≤ p.x ∧ p.x ≤ mx.x ∧ mn.y ≤ p.y ∧ p.y ≤ mx.y ∧ mn.z ≤ p.z ∧ p.z ≤ mx.z

/-- Componentwise order on Vec3. -/
def vle (a b : Vec3) : Prop := a.x ≤ b.x ∧ a.y ≤ b.y ∧ a.z ≤ b.z

/-- Rasterizer::aabbIntersectsFrustum.  The two glm::distance calls take a
    square root, which has no rational model; the Euclidean distance
    implemented by glm is passed in as the oracle argument dist, which no
    claim constrains. -/
def aabbIntersectsFrustum (dist : Vec3 → Vec3 → ℚ) (view : Mat4)
    (planes : List Plane) (zNear zFar : ℚ) (b : Block) : Block :=
  let box := viewBox view b
  let mn := box.1
  let mx := box.2
  let center : Vec3 := ⟨(mn.x + mx.x) / 2, (mn.y + mx.y) / 2, (mn.z + mx.z) / 2⟩
  let m := minDistOf planes mn mx
  { b with
    distanceToCameraCenter := dist center ⟨0, 0, 0⟩,
    distanceToFrustumCenter := dist center ⟨0, 0, -(zFar + zNear) / 2⟩,
    distanceToPlaneMin := m,
    isVisible := decide (0 ≤ m) }

/-- Rasterizer::cullBlocks: cull every retained block. -/
def cullBlocks (dist : Vec3 → Vec3 → ℚ) (view : Mat4) (planes : List Plane)
    (zNear zFar : ℚ) (l : List Block) : List Block :=
  l.map (aabbIntersectsFrustum dist view planes zNear zFar)

/- ===================== Per-frame plan (Rasterizer::loadBlocksOOC) ======== -/

/-- DataManager::pathFor formats "block_%04d.bin" from the id, an injective
    map; paths are modelled by the id itself. -/
def pathFor (id : ℤ) : ℤ := id

/-- Modelled from the spec: the four-argument DataManager::enqueueBlock is
    declared in DataManager.h and called through Rasterizer::loadBlock, but
    its body is not in the snapshot (DataManager.cpp holds an older
    two-argument revision).  Per the spec a load job carries block_id,
    slot_idx, count, the destination tag and the block file path, and is
    pushed onto the job queue.  The tag records the bool the Rasterizer
    passes: true for a load into a slot, false for the subslot tier (the
    Rasterizer call sites name it loadToSlots; the Job.h field is named
    loadSubSlots). -/
def enqueueBlock (jobs : List Job) (blockID slotIdx count : ℤ) (isSub : Bool) :
    List Job :=
  jobs ++ [{ blockID := blockID, count := count, slotIdx := slotIdx,
             loadSubSlots := isSub, path := pathFor blockID }]

/-- Render-thread state that Rasterizer::loadBlocksOOC reads and writes: the
    slot vector, the subslot cache, the jobs pushed this frame, and the
    loadBlockCount / cacheMiss counters. -/
structure PlanState where
  slots : List Slot
  subSlots : SubslotsCache
  jobs : List Job
  loadBlockCount : ℕ
  cacheMiss : ℕ
  cacheInitialized : Bool

/-- std::swap(slots[a], slots[b]). -/
def swapSlots (l : List Slot) (a b : ℕ) : List Slot :=
  let va := l.getD a default
  let vb := l.getD b default
  (l.set a vb).set b va

/-- Rasterizer::updateSlotByBlockID: linear search for the first slot holding
    blockID; when found, swap it with the target index. -/
def updateSlotByBlockID (slots : List Slot) (blockID : ℤ) (targetIdx : ℕ) :
    Bool × List Slot :=
  match findSlotIdx blockID slots with
  | none => (false, slots)
  | some j => (true, swapSlots slots j targetIdx)

/-- Body of the main loop of loadBlocksOOC at plan index i: in-slot hit by
    swap, else subslot hit by extract / demote / install, else enqueue a miss
    job for slot i. -/
def planStep (isCache : Bool) (numPointsPerSlot : ℤ) (blocks : List Block)
    (s : PlanState) (i : ℕ) : PlanState :=
  let blockID := (blocks.getD i {}).blockID
  let r := updateSlotByBlockID s.slots blockID i
  if r.1 then { s with slots := r.2 }
  else
    match (if isCache then s.subSlots.extract blockID else none) with
    | some er =>
        -- subSlots.put(std::move(slots[i])); slots[i] = std::move(extracted).
        -- The eviction value of that put is discarded; its none (empty front)
        -- case cannot arise after a successful extract of a cache built by
        -- put, and is mapped to the unchanged cache.
        let cache2 :=
          match er.2.put (s.slots.getD i default) with
          | some q => q.2
          | none => er.2
        { s with subSlots := cache2, slots := s.slots.set i er.1 }
    | none =>
        let cnt := min (blocks.getD i {}).count numPointsPerSlot
        { s with jobs := enqueueBlock s.jobs blockID (i : ℤ) cnt true,
                 loadBlockCount := s.loadBlockCount + 1,
                 cacheMiss := s.cacheMiss + 1 }

/-- The main loop of loadBlocksOOC over plan indices 0..limit-1. -/
def planLoop (isCache : Bool) (numPointsPerSlot : ℤ) (blocks : List Block)
    (s : PlanState) (limit : ℕ) : PlanState :=
  (List.range limit).foldl (planStep isCache numPointsPerSlot blocks) s

/-- One-time warmup loop of loadBlocksOOC: walk blocks from the plan limit,
    touching ids already cached and enqueueing subslot loads otherwise, until
    num_subSlots entries were handled or the block list ends. -/
def warmupLoop (numPointsPerSlot : ℤ) (numSubSlots : ℕ) (blocks : List Block)
    (s : PlanState) (i blockIdx : ℕ) : PlanState :=
  if h : i < numSubSlots ∧ blockIdx < blocks.length then
    let blockID := (blocks.getD blockIdx {}).blockID
    let t := s.subSlots.touch blockID
    if t.1 then
      warmupLoop numPointsPerSlot numSubSlots blocks { s with subSlots := t.2 }
        (i + 1) (blockIdx + 1)
    else
      let cnt := min (blocks.getD blockIdx {}).count numPointsPerSlot
      warmupLoop numPointsPerSlot numSubSlots blocks
        { s with jobs := enqueueBlock s.jobs blockID (i : ℤ) cnt false,
                 loadBlockCount := s.loadBlockCount + 1 }
        (i + 1) (blockIdx + 1)
  else s
termination_by blocks.length - blockIdx

/-- Rasterizer::loadBlocksOOC after its std::sort (which only permutes the
    blocks vector; the theorems quantify over arbitrary orders): reset the
    per-frame counters, run the plan loop over min(num_slots, visibleCount)
    indices with num_slots the slot vector's size, then the one-time warmup
    when the cache is enabled and not yet initialized. -/
def loadBlocksOOCPlan (isCache : Bool) (numPointsPerSlot : ℤ) (numSubSlots : ℕ)
    (visibleCount : ℕ) (blocks : List Block) (s0 : PlanState) : PlanState :=
  let limit := min s0.slots.length visibleCount
  let s1 := planLoop isCache numPointsPerSlot blocks
    { s0 with loadBlockCount := 0, cacheMiss := 0 } limit
  if isCache ∧ ¬ s1.cacheInitialized then
    { warmupLoop numPointsPerSlot numSubSlots blocks s1 0 limit with
      cacheInitialized := true }
  else s1

/-- The slot-bind property of the spec at plan index k: either slot k holds
    the block planned for it, or some enqueued Job names slot k. -/
def slotBound (blocks : List Block) (s : PlanState) (k : ℕ) : Prop :=
  ((s.slots.getD k default).blockID = (blocks.getD k {}).blockID)
  ∨ ∃ job ∈ s.jobs, job.slotIdx = (k : ℤ)

/- ============== Result drain (Rasterizer::drawLoadedBlocksOOC) =========== -/

/-- Render-thread state during the drain: slots, cache, the pending result
    queue and how many Results were popped so far this frame. -/
structure DrawState where
  slots : List Slot
  subSlots : SubslotsCache
  resultsQ : List Result
  popped : ℕ

/-- Per-Result body of drawLoadedBlocksOOC: route to the slot named by the
    Result (demoting the old slot into the cache when enabled, then
    overwriting blockID, count, status and points and drawing), or wrap the
    points in a transient Slot and put it into the cache. -/
def processResult (isCache : Bool) (s : DrawState) (r : Result) : DrawState :=
  if r.loadSubSlots then
    let idx := r.slotIdx.toNat
    let old := s.slots.getD idx default
    let cache2 :=
      if isCache then
        match s.subSlots.put old with
        | some q => q.2
        | none => s.subSlots
      else s.subSlots
    let newSlot : Slot :=
      { old with blockID := r.blockID, count := r.count, status := .LOADED,
                 points := r.points }
    { s with subSlots := cache2, slots := s.slots.set idx newSlot }
  else
    let t : Slot := { blockID := r.blockID, count := r.count, status := .LOADED,
                      points := r.points }
    let cache2 :=
      match s.subSlots.put t with
      | some q => q.2
      | none => s.subSlots
    { s with subSlots := cache2 }

/-- The drain loop of drawLoadedBlocksOOC: pop and process exactly
    loadBlockCount Results; none models the render thread blocking forever in
    getResult because no further Result will arrive. -/
def drawLoop (isCache : Bool) (s : DrawState) : ℕ → Option DrawState
  | 0 => some s
  | n + 1 =>
      match s.resultsQ with
      | [] => none
      | r :: rest =>
          drawLoop isCache
            (processResult isCache { s with resultsQ := rest, popped := s.popped + 1 } r) n

/- ========================= Theorems ========================= -/

/- Queue lemmas. -/

theorem foldl_qpush {T : Type} (vs : List T) (s : QState T) :
    vs.foldl qpush s = ⟨s.q ++ vs, s.stopped⟩ := by
  induction vs generalizing s with
  | nil => cases s; simp
  | cons v vs ih => simp [List.foldl_cons, ih, qpush]

theorem drains_of_stopped {T : Type} (vs : List T) :
    drains ⟨vs, true⟩ vs := by
  induction vs with
  | nil => rfl
  | cons v vs ih => exact ⟨⟨vs, true⟩, rfl, ih⟩

/-- C7: after pushing v_1..v_N onto a fresh queue and calling stop, the next N
    pops each return true and deliver v_1..v_N in FIFO order, and the
    (N+1)-th pop returns false. -/
theorem c7_queue_stop_drain {T : Type} (vs : List T) :
    drains (qstop (vs.foldl qpush ⟨[], false⟩)) vs := by
  rw [foldl_qpush]
  simpa [qstop] using drains_of_stopped vs

/-- C6: on a capacity-3 cache starting empty, put(a), put(b), put(c),
    touch(a), put(d) with four distinct block ids evicts exactly b at the
    put(d) step and leaves the MRU-to-LRU order d, a, c. -/
theorem c6_lru_order (a b c d : ℤ) (hab : a ≠ b) (hac : a ≠ c) (had : a ≠ d)
    (hbc : b ≠ c) (hbd : b ≠ d) (hcd : c ≠ d) :
    ∃ s1 s2 s3 s4 s5 ev,
      SubslotsCache.put ⟨3, []⟩ { blockID := a } = some (none, s1) ∧
      s1.put { blockID := b } = some (none, s2) ∧
      s2.put { blockID := c } = some (none, s3) ∧
      s3.touch a = (true, s4) ∧
      s4.put { blockID := d } = some (some ev, s5) ∧
      ev.blockID = b ∧
      s5.slots.reverse.map Slot.blockID = [d, a, c] := by
  refine ⟨⟨3, [{ blockID := a }]⟩,
          ⟨3, [{ blockID := a }, { blockID := b }]⟩,
          ⟨3, [{ blockID := a }, { blockID := b }, { blockID := c }]⟩,
          ⟨3, [{ blockID := b }, { blockID := c }, { blockID := a }]⟩,
          ⟨3, [{ blockID := c }, { blockID := a }, { blockID := d }]⟩,
          { blockID := b }, ?_, ?_, ?_, ?_, ?_, rfl, ?_⟩
  · simp [SubslotsCache.put, findSlotIdx]
  · simp [SubslotsCache.put, findSlotIdx, hab]
  · simp [SubslotsCache.put, findSlotIdx, hac, hbc]
  · simp [SubslotsCache.touch, findSlotIdx, hab.symm, hac.symm, List.eraseIdx,
      List.getD]
  · simp [SubslotsCache.put, findSlotIdx, had, hbd, hcd]
  · simp

/-- Closed instance of the C6 scenario at block ids 0, 1, 2, 3. -/
theorem c6_lru_order_witness :
    ∃ s1 s2 s3 s4 s5 ev,
      SubslotsCache.put ⟨3, []⟩ { blockID := 0 } = some (none, s1) ∧
      s1.put { blockID := 1 } = some (none, s2) ∧
      s2.put { blockID := 2 } = some (none, s3) ∧
      s3.touch 0 = (true, s4) ∧
      s4.put { blockID := 3 } = some (some ev, s5) ∧
      ev.blockID = 1 ∧
      s5.slots.reverse.map Slot.blockID = [3, 0, 2] :=
  c6_lru_order 0 1 2 3 (by decide) (by decide) (by decide) (by decide)
    (by decide) (by decide)

/-- C10: whenever the capacity is at least 1, put never reaches the empty
    front access in its eviction branch; with capacity 0 the first put on an
    empty cache does evaluate front() of an empty list (modelled as none). -/
theorem c10_put_eviction_safety (cache : SubslotsCache) (s : Slot)
    (h : 1 ≤ cache.capacity) :
    (cache.put s).isSome ∧ (SubslotsCache.put ⟨0, []⟩ s).isNone := by
  constructor
  · unfold SubslotsCache.put
    cases hf : findSlotIdx s.blockID cache.slots with
    | some j => simp
    | none =>
      by_cases hc : cache.capacity ≤ cache.slots.length
      · cases hsl : cache.slots with
        | nil => rw [hsl] at hc; simp at hc; omega
        | cons f r =>
            rw [hsl] at hc
            simp at hc
            simp [hc]
      · simp [hc]
  · simp [SubslotsCache.put, findSlotIdx]

/-- Closed instance of C10 at a capacity-1 empty cache and a default slot. -/
theorem c10_put_eviction_safety_witness :
    ((⟨1, []⟩ : SubslotsCache).put default).isSome ∧
    (SubslotsCache.put ⟨0, []⟩ default).isNone :=
  c10_put_eviction_safety ⟨1, []⟩ default (by decide)

/-- C1: workerMain copies only blockID (and the loaded points) into the
    Result it pushes; slotIdx, count and the destination tag are left holding
    the indeterminate values of the default-constructed Result, not the
    fields of the popped Job.  Evaluated at a concrete job whose block file
    holds one point, with zeroed indeterminate values. -/
theorem c1_worker_drops_job_fields :
    (workerStep
        (fun p => if p = 7 then some [{ pos := ⟨1, 2, 3⟩, color := ⟨1, 0, 0⟩ }] else none)
        { blockID := 0, slotIdx := 0, count := 0, loadSubSlots := false, points := [] }
        { blockID := 7, count := 1, slotIdx := 2, loadSubSlots := true, path := 7 })
      = { blockID := 7, slotIdx := 0, count := 0, loadSubSlots := false,
          points := [{ pos := ⟨1, 2, 3⟩, color := ⟨1, 0, 0⟩ }] } ∧
    (0 : ℤ) ≠ 2 ∧ (0 : ℤ) ≠ 1 ∧ false ≠ true := by
  refine ⟨?_, by decide, by decide, by decide⟩
  simp [workerStep, loadBlockR]

/-- C5 counterexample: with 5 vertices over 2 retained blocks, setupSlots
    computes num_points_per_slot = 5 / 2 = 2, not the ceiling 3 the claim
    states. -/
theorem c5_points_cap_not_ceiling :
    (setupSlotsConfig (1 / 5 : ℚ) 2 5).num_points_per_slot ≠ ⌈(5 : ℚ) / (2 : ℚ)⌉ := by
  have h2 : ⌈(5 : ℚ) / (2 : ℚ)⌉ = 3 := by
    rw [Int.ceil_eq_iff]
    norm_num
  rw [h2]
  decide

/-- C5 (amended): num_slots and subslot capacity are the floors the claim
    states, while num_points_per_slot is the floor, not the ceiling, of
    vertex_count / retained block count. -/
theorem c5_slot_config_floor (slotFactor : ℚ) (numBlocks vertexCount : ℕ)
    (h : 0 ≤ slotFactor) :
    (setupSlotsConfig slotFactor numBlocks vertexCount).num_slots
        = ⌊slotFactor * (numBlocks : ℚ)⌋ ∧
    (setupSlotsConfig slotFactor numBlocks vertexCount).num_subSlots
        = ⌊(1 / 2 : ℚ) * slotFactor * (numBlocks : ℚ)⌋ ∧
    (setupSlotsConfig slotFactor numBlocks vertexCount).num_points_per_slot
        = ⌊(vertexCount : ℚ) / (numBlocks : ℚ)⌋ := by
  refine ⟨?_, ?_, ?_⟩
  · show cppTruncQ (slotFactor * (numBlocks : ℚ)) = _
    rw [cppTruncQ, if_pos (mul_nonneg h (by positivity))]
  · show cppTruncQ ((1 / 2 : ℚ) * slotFactor * (numBlocks : ℚ)) = _
    rw [cppTruncQ, if_pos (mul_nonneg (mul_nonneg (by norm_num) h) (by positivity))]
  · show Int.ofNat (vertexCount / numBlocks) = ⌊(vertexCount : ℚ) / (numBlocks : ℚ)⌋
    rw [show ((vertexCount : ℚ)) = ((vertexCount : ℤ) : ℚ) by push_cast; ring,
      Rat.floor_intCast_div_natCast]
    exact Int.natCast_div _ _

/-- Closed instance of the amended C5 at slotFactor 1/5, 10 blocks, 25
    vertices. -/
theorem c5_slot_config_floor_witness :
    (setupSlotsConfig (1 / 5 : ℚ) 10 25).num_slots = ⌊(1 / 5 : ℚ) * ((10 : ℕ) : ℚ)⌋ ∧
    (setupSlotsConfig (1 / 5 : ℚ) 10 25).num_subSlots
        = ⌊(1 / 2 : ℚ) * (1 / 5 : ℚ) * ((10 : ℕ) : ℚ)⌋ ∧
    (setupSlotsConfig (1 / 5 : ℚ) 10 25).num_points_per_slot
        = ⌊((25 : ℕ) : ℚ) / ((10 : ℕ) : ℚ)⌋ :=
  c5_slot_config_floor (1 / 5) 10 25 (by norm_num)

/- Partition-pass lemmas. -/

theorem sameExceptIngest_refl (a : Block) : sameExceptIngest a a := by
  unfold sameExceptIngest
  exact ⟨rfl, rfl, rfl, rfl, rfl, rfl, rfl, rfl⟩

theorem sameExceptIngest_trans {a b c : Block} (h1 : sameExceptIngest a b)
    (h2 : sameExceptIngest b c) : sameExceptIngest a c := by
  unfold sameExceptIngest at *
  obtain ⟨a1, a2, a3, a4, a5, a6, a7, a8⟩ := h1
  obtain ⟨b1, b2, b3, b4, b5, b6, b7, b8⟩ := h2
  exact ⟨a1.trans b1, a2.trans b2, a3.trans b3, a4.trans b4, a5.trans b5,
    a6.trans b6, a7.trans b7, a8.trans b8⟩

theorem flushBuf_blocks (j : ℕ) (s : PState) : (flushBuf j s).blocks = s.blocks := by
  unfold flushBuf
  split
  · rfl
  · rfl

theorem processPoint_blocks (bm c : Vec3) (s : PState) (fp : FilePoint) :
    (processPoint bm c s fp).blocks
      = Function.update s.blocks ((binIndex bm c fp).toNat)
          { s.blocks ((binIndex bm c fp).toNat) with
            count := (s.blocks ((binIndex bm c fp).toNat)).count + 1 } := by
  simp only [processPoint]
  split
  · rw [flushBuf_blocks]
  · rfl

theorem processPoint_sameExcept (bm c : Vec3) (s : PState) (fp : FilePoint) (id : ℕ) :
    sameExceptIngest ((processPoint bm c s fp).blocks id) (s.blocks id) := by
  rw [processPoint_blocks]
  by_cases h : id = (binIndex bm c fp).toNat
  · subst h
    rw [Function.update_same]
    exact ⟨rfl, rfl, rfl, rfl, rfl, rfl, rfl, rfl⟩
  · rw [Function.update_noteq h]
    exact sameExceptIngest_refl _

theorem foldl_processPoint_sameExcept (bm c : Vec3) (pts : List FilePoint) :
    ∀ (s : PState) (id : ℕ),
      sameExceptIngest ((pts.foldl (processPoint bm c) s).blocks id) (s.blocks id) := by
  induction pts with
  | nil => exact fun s id => sameExceptIngest_refl _
  | cons fp pts ih =>
      intro s id
      exact sameExceptIngest_trans (ih (processPoint bm c s fp) id)
        (processPoint_sameExcept bm c s fp id)

theorem initBlockBounds_sameExcept (bm c : Vec3) (bl : ℕ → Block) (id : ℕ) :
    sameExceptIngest (initBlockBounds bm c bl id) (bl id) := by
  unfold initBlockBounds
  split
  · exact ⟨rfl, rfl, rfl, rfl, rfl, rfl, rfl, rfl⟩
  · exact sameExceptIngest_refl _

theorem initBlockBounds_count (bm c : Vec3) (bl : ℕ → Block) (id : ℕ) :
    (initBlockBounds bm c bl id).count = (bl id).count := by
  unfold initBlockBounds
  split
  · rfl
  · rfl

theorem foldl_flushBuf_blocks (L : List ℕ) :
    ∀ s : PState, (L.foldl (fun s j => flushBuf j s) s).blocks = s.blocks := by
  induction L with
  | nil => exact fun s => rfl
  | cons j L ih =>
      intro s
      rw [List.foldl_cons, ih, flushBuf_blocks]

theorem flushAll_blocks (s : PState) : (flushAll s).blocks = s.blocks :=
  foldl_flushBuf_blocks _ s

theorem createBlocks_blocks (bbmin bbmax : Vec3) (pts : List FilePoint)
    (blocks0 : ℕ → Block) :
    (createBlocks bbmin bbmax pts blocks0).blocks
      = (pts.foldl (processPoint bbmin (cellOf bbmin bbmax))
          { blocks := initBlockBounds bbmin (cellOf bbmin bbmax) blocks0
          , outBuf := fun _ => []
          , files := fun _ => [] }).blocks := by
  simp only [createBlocks]
  rw [flushAll_blocks]

theorem aabb_blockID (dist : Vec3 → Vec3 → ℚ) (view : Mat4) (planes : List Plane)
    (zNear zFar : ℚ) (b : Block) :
    (aabbIntersectsFrustum dist view planes zNear zFar b).blockID = b.blockID := rfl

/-- C2: DataManager::createBlocks mutates only bb_min, bb_max and count of
    each Block, and with default-initialized blocks (blockID = -1, as the
    Rasterizer's resize produces) every block still carries blockID -1 after
    ingest, including after filterBlocks and the frustum cull. -/
theorem c2_create_blocks_only_ingest_fields (bbmin bbmax : Vec3)
    (pts : List FilePoint) (blocks0 : ℕ → Block)
    (hdef : ∀ id, (blocks0 id).blockID = -1) :
    (∀ id, sameExceptIngest ((createBlocks bbmin bbmax pts blocks0).blocks id)
        (blocks0 id)) ∧
    (∀ id, ((createBlocks bbmin bbmax pts blocks0).blocks id).blockID = -1) ∧
    (∀ (dist : Vec3 → Vec3 → ℚ) (view : Mat4) (planes : List Plane)
        (zNear zFar : ℚ) (b : Block),
        b ∈ cullBlocks dist view planes zNear zFar
              (filterBlocks (blockListOf (createBlocks bbmin bbmax pts blocks0))) →
        b.blockID = -1) := by
  have hsame : ∀ id, sameExceptIngest
      ((createBlocks bbmin bbmax pts blocks0).blocks id) (blocks0 id) := by
    intro id
    rw [createBlocks_blocks]
    exact sameExceptIngest_trans
      (foldl_processPoint_sameExcept _ _ pts _ id)
      (initBlockBounds_sameExcept _ _ blocks0 id)
  have hids : ∀ id, ((createBlocks bbmin bbmax pts blocks0).blocks id).blockID = -1 :=
    fun id => ((hsame id).1).trans (hdef id)
  refine ⟨hsame, hids, ?_⟩
  intro dist view planes zNear zFar b hb
  simp only [cullBlocks] at hb
  obtain ⟨b1, hb1, rfl⟩ := List.mem_map.mp hb
  simp only [filterBlocks] at hb1
  have hb2 := List.mem_of_mem_filter hb1
  simp only [blockListOf] at hb2
  obtain ⟨id, _, rfl⟩ := List.mem_map.mp hb2
  rw [aabb_blockID]
  exact hids id

/-- Closed instance of C2 on an empty vertex list and default block array. -/
theorem c2_create_blocks_only_ingest_fields_witness :
    (∀ id, sameExceptIngest ((createBlocks ⟨0, 0, 0⟩ ⟨1, 1, 1⟩ [] (fun _ => {})).blocks id)
        ((fun _ => ({} : Block)) id)) ∧
    (∀ id, ((createBlocks ⟨0, 0, 0⟩ ⟨1, 1, 1⟩ [] (fun _ => {})).blocks id).blockID = -1) ∧
    (∀ (dist : Vec3 → Vec3 → ℚ) (view : Mat4) (planes : List Plane)
        (zNear zFar : ℚ) (b : Block),
        b ∈ cullBlocks dist view planes zNear zFar
              (filterBlocks (blockListOf (createBlocks ⟨0, 0, 0⟩ ⟨1, 1, 1⟩ [] (fun _ => {})))) →
        b.blockID = -1) :=
  c2_create_blocks_only_ingest_fields ⟨0, 0, 0⟩ ⟨1, 1, 1⟩ [] (fun _ => {})
    (fun _ => rfl)

/- Bounding-box pass lemmas: the computed minimum is below every input
   point. -/

theorem vle_trans {a b c : Vec3} (h1 : vle a b) (h2 : vle b c) : vle a c :=
  ⟨le_trans h1.1 h2.1, le_trans h1.2.1 h2.2.1, le_trans h1.2.2 h2.2.2⟩

theorem bboxExpand_min_le (p : Vec3) (acc : Vec3 × Vec3) :
    vle (bboxExpand p acc).1 acc.1 ∧ vle (bboxExpand p acc).1 p := by
  simp only [bboxExpand, vle]
  constructor
  · refine ⟨?_, ?_, ?_⟩ <;> dsimp only <;> split <;> linarith
  · refine ⟨?_, ?_, ?_⟩ <;> dsimp only <;> split <;> linarith

theorem foldl_bbox_min_le_acc (pts : List FilePoint) :
    ∀ acc : Vec3 × Vec3,
      vle (pts.foldl (fun a q => bboxExpand ⟨q.x, q.y, q.z⟩ a) acc).1 acc.1 := by
  induction pts with
  | nil => exact fun acc => ⟨le_refl _, le_refl _, le_refl _⟩
  | cons fp pts ih =>
      intro acc
      rw [List.foldl_cons]
      exact vle_trans (ih _) (bboxExpand_min_le ⟨fp.x, fp.y, fp.z⟩ acc).1

theorem foldl_bbox_min_le_mem (pts : List FilePoint) (fp : FilePoint) (h : fp ∈ pts) :
    ∀ acc : Vec3 × Vec3,
      vle (pts.foldl (fun a q => bboxExpand ⟨q.x, q.y, q.z⟩ a) acc).1
        ⟨fp.x, fp.y, fp.z⟩ := by
  induction pts with
  | nil => cases h
  | cons hd tl ih =>
      intro acc
      rw [List.foldl_cons]
      rcases List.mem_cons.mp h with he | hm
      · subst he
        exact vle_trans (foldl_bbox_min_le_acc tl _)
          (bboxExpand_min_le ⟨fp.x, fp.y, fp.z⟩ acc).2
      · exact ih hm _

theorem bboxPass_min_le (pts : List FilePoint) (fp : FilePoint) (h : fp ∈ pts) :
    vle (bboxPass pts).1 ⟨fp.x, fp.y, fp.z⟩ := by
  unfold bboxPass
  exact foldl_bbox_min_le_mem pts fp h _

/- Bin-index lemmas. -/

theorem cppTruncQ_nonneg_floor (q : ℚ) (h : 0 ≤ q) : cppTruncQ q = ⌊q⌋ := if_pos h

theorem axisIdx_eq_claim (p mn cell : ℚ) (h : mn ≤ p) (hc : 0 < cell) :
    axisIdx p mn cell = claimAxisIdx p mn cell := by
  unfold axisIdx claimAxisIdx
  rw [cppTruncQ_nonneg_floor _ (div_nonneg (by linarith) hc.le)]

theorem binIndex_eq_claimBin (bm c : Vec3) (fp : FilePoint)
    (hx : bm.x ≤ fp.x) (hy : bm.y ≤ fp.y) (hz : bm.z ≤ fp.z)
    (hcx : 0 < c.x) (hcy : 0 < c.y) (hcz : 0 < c.z) :
    binIndex bm c fp = claimBin bm c fp := by
  unfold binIndex claimBin
  rw [axisIdx_eq_claim _ _ _ hx hcx, axisIdx_eq_claim _ _ _ hy hcy,
    axisIdx_eq_claim _ _ _ hz hcz]

theorem clampi_range (v lo hi : ℤ) (h : lo ≤ hi) :
    lo ≤ clampi v lo hi ∧ clampi v lo hi ≤ hi := by
  unfold clampi
  split_ifs <;> omega

theorem binIndex_range (bm c : Vec3) (fp : FilePoint) :
    0 ≤ binIndex bm c fp ∧ binIndex bm c fp < 1000 := by
  unfold binIndex axisIdx
  have h1 := clampi_range (cppTruncQ ((fp.x - bm.x) / c.x)) 0 9 (by omega)
  have h2 := clampi_range (cppTruncQ ((fp.y - bm.y) / c.y)) 0 9 (by omega)
  have h3 := clampi_range (cppTruncQ ((fp.z - bm.z) / c.z)) 0 9 (by omega)
  omega

/- File-content lemmas: files ++ outBuf per block is the filtered converted
   point stream. -/

theorem flushBuf_concat (j : ℕ) (s : PState) (id : ℕ) :
    (flushBuf j s).files id ++ (flushBuf j s).outBuf id
      = s.files id ++ s.outBuf id := by
  unfold flushBuf
  split
  · rfl
  · by_cases h : id = j
    · subst h
      simp [Function.update_same]
    · simp [Function.update_noteq h]

theorem processPoint_concat (bm c : Vec3) (s : PState) (fp : FilePoint) (id : ℕ) :
    (processPoint bm c s fp).files id ++ (processPoint bm c s fp).outBuf id
      = s.files id ++ s.outBuf id
        ++ (if (binIndex bm c fp).toNat = id then [toPoint fp] else []) := by
  simp only [processPoint]
  split
  · rw [flushBuf_concat]
    by_cases h : (binIndex bm c fp).toNat = id
    · rw [h]
      simp [Function.update_same]
    · simp [Function.update_noteq (Ne.symm h), h]
  · by_cases h : (binIndex bm c fp).toNat = id
    · rw [h]
      simp [Function.update_same]
    · simp [Function.update_noteq (Ne.symm h), h]

theorem foldl_processPoint_concat (bm c : Vec3) (pts : List FilePoint) :
    ∀ (s : PState) (id : ℕ),
      (pts.foldl (processPoint bm c) s).files id
          ++ (pts.foldl (processPoint bm c) s).outBuf id
        = s.files id ++ s.outBuf id
          ++ (pts.filter (fun q => (binIndex bm c q).toNat == id)).map toPoint := by
  induction pts with
  | nil => intro s id; simp
  | cons fp pts ih =>
      intro s id
      rw [List.foldl_cons, ih, processPoint_concat, List.filter_cons]
      by_cases h : (binIndex bm c fp).toNat = id
      · simp [h, List.append_assoc]
      · simp [h]

theorem flushBuf_outBuf_self (j : ℕ) (s : PState) : (flushBuf j s).outBuf j = [] := by
  unfold flushBuf
  split
  next h => exact h
  next h => simp [Function.update_same]

theorem flushBuf_outBuf_ne (j : ℕ) (s : PState) (id : ℕ) (h : id ≠ j) :
    (flushBuf j s).outBuf id = s.outBuf id := by
  unfold flushBuf
  split
  · rfl
  · simp [Function.update_noteq h]

theorem foldl_flushBuf_outBuf_nil (L : List ℕ) :
    ∀ (s : PState) (id : ℕ), s.outBuf id = [] →
      (L.foldl (fun s j => flushBuf j s) s).outBuf id = [] := by
  induction L with
  | nil => exact fun s id h => h
  | cons j L ih =>
      intro s id h
      rw [List.foldl_cons]
      apply ih
      by_cases hj : id = j
      · subst hj
        exact flushBuf_outBuf_self _ _
      · rw [flushBuf_outBuf_ne j s id hj]
        exact h

theorem foldl_flushBuf_outBuf_mem (L : List ℕ) :
    ∀ (s : PState) (id : ℕ), id ∈ L →
      (L.foldl (fun s j => flushBuf j s) s).outBuf id = [] := by
  induction L with
  | nil => intro s id h; cases h
  | cons j L ih =>
      intro s id h
      rw [List.foldl_cons]
      rcases List.mem_cons.mp h with he | hm
      · subst he
        exact foldl_flushBuf_outBuf_nil L _ _ (flushBuf_outBuf_self _ _)
      · exact ih _ _ hm

theorem foldl_flushBuf_concat (L : List ℕ) :
    ∀ (s : PState) (id : ℕ),
      (L.foldl (fun s j => flushBuf j s) s).files id
          ++ (L.foldl (fun s j => flushBuf j s) s).outBuf id
        = s.files id ++ s.outBuf id := by
  induction L with
  | nil => intro s id; rfl
  | cons j L ih =>
      intro s id
      rw [List.foldl_cons, ih, flushBuf_concat]

theorem createBlocks_files (bbmin bbmax : Vec3) (pts : List FilePoint)
    (blocks0 : ℕ → Block) (id : ℕ) (hid : id < NUM_BLOCKS) :
    (createBlocks bbmin bbmax pts blocks0).files id
      = (pts.filter
          (fun q => (binIndex bbmin (cellOf bbmin bbmax) q).toNat == id)).map toPoint := by
  have hout : (createBlocks bbmin bbmax pts blocks0).outBuf id = [] := by
    simp only [createBlocks, flushAll]
    exact foldl_flushBuf_outBuf_mem _ _ _ (List.mem_range.mpr hid)
  have hcat : (createBlocks bbmin bbmax pts blocks0).files id
      ++ (createBlocks bbmin bbmax pts blocks0).outBuf id
      = (pts.filter
          (fun q => (binIndex bbmin (cellOf bbmin bbmax) q).toNat == id)).map toPoint := by
    simp only [createBlocks, flushAll]
    rw [foldl_flushBuf_concat, foldl_processPoint_concat]
    simp
  rw [hout, List.append_nil] at hcat
  exact hcat

/- Count lemmas. -/

theorem foldl_processPoint_count (bm c : Vec3) (pts : List FilePoint) :
    ∀ (s : PState) (id : ℕ),
      ((pts.foldl (processPoint bm c) s).blocks id).count
        = (s.blocks id).count
          + ((pts.filter (fun q => (binIndex bm c q).toNat == id)).length : ℤ) := by
  induction pts with
  | nil => intro s id; simp
  | cons fp pts ih =>
      intro s id
      rw [List.foldl_cons, ih, processPoint_blocks, List.filter_cons]
      by_cases h : (binIndex bm c fp).toNat = id
      · rw [h, Function.update_same]
        simp only [h, beq_self_eq_true, if_true, List.length_cons]
        push_cast
        ring
      · rw [Function.update_noteq (Ne.symm h)]
        simp [h]

theorem sum_filter_length_binIndex (bm c : Vec3) (pts : List FilePoint) :
    (∑ id in Finset.range NUM_BLOCKS,
        ((pts.filter (fun q => (binIndex bm c q).toNat == id)).length : ℤ))
      = (pts.length : ℤ) := by
  induction pts with
  | nil => simp
  | cons fp pts ih =>
      have hmem : (binIndex bm c fp).toNat ∈ Finset.range NUM_BLOCKS := by
        have hr := binIndex_range bm c fp
        have hnb : NUM_BLOCKS = 1000 := rfl
        refine Finset.mem_range.mpr ?_
        omega
      have hstep : ∀ id ∈ Finset.range NUM_BLOCKS,
          (((fp :: pts).filter (fun q => (binIndex bm c q).toNat == id)).length : ℤ)
            = (if (binIndex bm c fp).toNat = id then (1 : ℤ) else 0)
              + ((pts.filter (fun q => (binIndex bm c q).toNat == id)).length : ℤ) := by
        intro id _
        rw [List.filter_cons]
        by_cases h : (binIndex bm c fp).toNat = id
        · simp [h]
          omega
        · simp [h]
      rw [Finset.sum_congr rfl hstep, Finset.sum_add_distrib, Finset.sum_ite_eq,
        if_pos hmem, ih]
      push_cast [List.length_cons]
      ring

/-- C4: for every well-formed input, the partition pass routes each vertex to
    exactly one block file, the one at the claim's clamped floor-based index;
    the stored records carry the u8 colors divided by 255 (claimPoint); and
    the per-block counts sum to the vertex count.  The bbox comes from the
    first pass over the same float-converted coordinates, whence every point
    is at or above bb_min and the truncating cast agrees with the floor; the
    cell extents are required positive, as the claim's formula presumes. -/
theorem c4_partition_coverage (pts : List FilePoint) (blocks0 : ℕ → Block)
    (h0 : ∀ id, (blocks0 id).count = 0)
    (hcx : 0 < (cellOf (bboxPass pts).1 (bboxPass pts).2).x)
    (hcy : 0 < (cellOf (bboxPass pts).1 (bboxPass pts).2).y)
    (hcz : 0 < (cellOf (bboxPass pts).1 (bboxPass pts).2).z) :
    (∀ id : ℕ, id < NUM_BLOCKS →
      (createBlocks (bboxPass pts).1 (bboxPass pts).2 pts blocks0).files id
        = (pts.filter (fun q =>
            claimBin (bboxPass pts).1 (cellOf (bboxPass pts).1 (bboxPass pts).2) q
              == (id : ℤ))).map claimPoint) ∧
    (∑ id in Finset.range NUM_BLOCKS,
        ((createBlocks (bboxPass pts).1 (bboxPass pts).2 pts blocks0).blocks id).count)
      = (pts.length : ℤ) := by
  constructor
  · intro id hid
    rw [createBlocks_files _ _ _ _ _ hid]
    have hpred : ∀ q ∈ pts,
        ((binIndex (bboxPass pts).1 (cellOf (bboxPass pts).1 (bboxPass pts).2) q).toNat == id)
          = (claimBin (bboxPass pts).1 (cellOf (bboxPass pts).1 (bboxPass pts).2) q
              == (id : ℤ)) := by
      intro q hq
      have hmem := bboxPass_min_le pts q hq
      have heq := binIndex_eq_claimBin _ _ q hmem.1 hmem.2.1 hmem.2.2 hcx hcy hcz
      have hr := binIndex_range (bboxPass pts).1
        (cellOf (bboxPass pts).1 (bboxPass pts).2) q
      apply Bool.eq_iff_iff.mpr
      simp only [beq_iff_eq]
      rw [← heq]
      omega
    rw [List.filter_congr hpred]
    rfl
  · rw [createBlocks_blocks]
    have hsum : ∀ id ∈ Finset.range NUM_BLOCKS,
        ((pts.foldl (processPoint (bboxPass pts).1 (cellOf (bboxPass pts).1 (bboxPass pts).2))
            { blocks := initBlockBounds (bboxPass pts).1
                (cellOf (bboxPass pts).1 (bboxPass pts).2) blocks0
            , outBuf := fun _ => []
            , files := fun _ => [] }).blocks id).count
          = ((pts.filter (fun q =>
              (binIndex (bboxPass pts).1 (cellOf (bboxPass pts).1 (bboxPass pts).2) q).toNat
                == id)).length : ℤ) := by
      intro id _
      rw [foldl_processPoint_count]
      have hinit : (initBlockBounds (bboxPass pts).1
          (cellOf (bboxPass pts).1 (bboxPass pts).2) blocks0 id).count = 0 :=
        (initBlockBounds_count _ _ _ _).trans (h0 id)
      dsimp only
      rw [hinit]
      ring
    rw [Finset.sum_congr rfl hsum]
    exact sum_filter_length_binIndex _ _ pts

/-- Closed instance of C4 on a two-point cloud spanning a unit-cell grid. -/
theorem c4_partition_coverage_witness :
    (∀ id : ℕ, id < NUM_BLOCKS →
      (createBlocks (bboxPass [⟨0, 0, 0, 0, 0, 0⟩, ⟨10, 10, 10, 255, 0, 0⟩]).1
          (bboxPass [⟨0, 0, 0, 0, 0, 0⟩, ⟨10, 10, 10, 255, 0, 0⟩]).2
          [⟨0, 0, 0, 0, 0, 0⟩, ⟨10, 10, 10, 255, 0, 0⟩] (fun _ => {})).files id
        = (([⟨0, 0, 0, 0, 0, 0⟩, ⟨10, 10, 10, 255, 0, 0⟩] : List FilePoint).filter (fun q =>
            claimBin (bboxPass [⟨0, 0, 0, 0, 0, 0⟩, ⟨10, 10, 10, 255, 0, 0⟩]).1
              (cellOf (bboxPass [⟨0, 0, 0, 0, 0, 0⟩, ⟨10, 10, 10, 255, 0, 0⟩]).1
                (bboxPass [⟨0, 0, 0, 0, 0, 0⟩, ⟨10, 10, 10, 255, 0, 0⟩]).2) q
              == (id : ℤ))).map claimPoint) ∧
    (∑ id in Finset.range NUM_BLOCKS,
        ((createBlocks (bboxPass [⟨0, 0, 0, 0, 0, 0⟩, ⟨10, 10, 10, 255, 0, 0⟩]).1
            (bboxPass [⟨0, 0, 0, 0, 0, 0⟩, ⟨10, 10, 10, 255, 0, 0⟩]).2
            [⟨0, 0, 0, 0, 0, 0⟩, ⟨10, 10, 10, 255, 0, 0⟩] (fun _ => {})).blocks id).count)
      = (([⟨0, 0, 0, 0, 0, 0⟩, ⟨10, 10, 10, 255, 0, 0⟩] : List FilePoint).length : ℤ) :=
  c4_partition_coverage [⟨0, 0, 0, 0, 0, 0⟩, ⟨10, 10, 10, 255, 0, 0⟩] (fun _ => {})
    (fun _ => rfl) (by norm_num [bboxPass, bboxExpand, fltMax, cellOf])
    (by norm_num [bboxPass, bboxExpand, fltMax, cellOf])
    (by norm_num [bboxPass, bboxExpand, fltMax, cellOf])

/- Frustum-cull lemmas. -/

theorem vmin_vle_right (a b : Vec3) : vle (vmin a b) b :=
  ⟨min_le_right _ _, min_le_right _ _, min_le_right _ _⟩

theorem vle_vmax_right (a b : Vec3) : vle b (vmax a b) :=
  ⟨le_max_right _ _, le_max_right _ _, le_max_right _ _⟩

theorem viewBox_proper (view : Mat4) (b : Block) :
    vle (viewBox view b).1 (viewBox view b).2 := by
  unfold viewBox cornersOf
  dsimp only [List.foldl]
  exact vle_trans (vmin_vle_right _ _) (vle_vmax_right _ _)

theorem posVertex_inBox (n mn mx : Vec3) (h : vle mn mx) :
    inBox mn mx (posVertex n mn mx) := by
  unfold posVertex inBox
  refine ⟨?_, ?_, ?_, ?_, ?_, ?_⟩ <;> dsimp only <;> split <;>
    first
      | exact le_refl _
      | exact h.1
      | exact h.2.1
      | exact h.2.2

theorem planeDist_le_posVertex (pl : Plane) (mn mx p : Vec3) (hp : inBox mn mx p) :
    planeDist pl p ≤ planeDist pl (posVertex pl.n mn mx) := by
  obtain ⟨h1, h2, h3, h4, h5, h6⟩ := hp
  unfold planeDist posVertex
  have hx : pl.n.x * p.x ≤ pl.n.x * (if 0 ≤ pl.n.x then mx.x else mn.x) := by
    split
    next hpos => exact mul_le_mul_of_nonneg_left h2 hpos
    next hneg => exact mul_le_mul_of_nonpos_left h1 (le_of_not_le hneg)
  have hy : pl.n.y * p.y ≤ pl.n.y * (if 0 ≤ pl.n.y then mx.y else mn.y) := by
    split
    next hpos => exact mul_le_mul_of_nonneg_left h4 hpos
    next hneg => exact mul_le_mul_of_nonpos_left h3 (le_of_not_le hneg)
  have hz : pl.n.z * p.z ≤ pl.n.z * (if 0 ≤ pl.n.z then mx.z else mn.z) := by
    split
    next hpos => exact mul_le_mul_of_nonneg_left h6 hpos
    next hneg => exact mul_le_mul_of_nonpos_left h5 (le_of_not_le hneg)
  dsimp only
  linarith

theorem foldl_planeMin_le_acc (mn mx : Vec3) (planes : List Plane) :
    ∀ acc : ℚ,
      planes.foldl (fun a pl => min (planeDist pl (posVertex pl.n mn mx)) a) acc ≤ acc := by
  induction planes with
  | nil => exact fun acc => le_refl _
  | cons pl planes ih =>
      intro acc
      rw [List.foldl_cons]
      exact le_trans (ih _) (min_le_right _ _)

theorem foldl_planeMin_le_mem (mn mx : Vec3) (planes : List Plane) (pl : Plane)
    (h : pl ∈ planes) :
    ∀ acc : ℚ,
      planes.foldl (fun a q => min (planeDist q (posVertex q.n mn mx)) a) acc
        ≤ planeDist pl (posVertex pl.n mn mx) := by
  induction planes with
  | nil => cases h
  | cons hd tl ih =>
      intro acc
      rw [List.foldl_cons]
      rcases List.mem_cons.mp h with he | hm
      · subst he
        exact le_trans (foldl_planeMin_le_acc mn mx tl _) (min_le_left _ _)
      · exact ih hm _

theorem foldl_planeMin_ge (mn mx : Vec3) (planes : List Plane) (c : ℚ) :
    ∀ acc : ℚ, c ≤ acc →
      (∀ pl ∈ planes, c ≤ planeDist pl (posVertex pl.n mn mx)) →
      c ≤ planes.foldl (fun a q => min (planeDist q (posVertex q.n mn mx)) a) acc := by
  induction planes with
  | nil => exact fun acc hacc _ => hacc
  | cons hd tl ih =>
      intro acc hacc hall
      rw [List.foldl_cons]
      exact ih _ (le_min (hall hd (List.mem_cons_self hd tl)) hacc)
        (fun pl hpl => hall pl (List.mem_cons_of_mem hd hpl))

/-- C8: the culler reports not-visible exactly when the minimum over the
    planes of the signed distance at the positive vertex of the view-space
    AABB is negative; a view-space AABB entirely behind some plane is
    reported not visible, and one containing a point at nonnegative distance
    from every plane is reported visible. -/
theorem c8_frustum_cull (dist : Vec3 → Vec3 → ℚ) (view : Mat4)
    (planes : List Plane) (zNear zFar : ℚ) (b : Block) :
    ((aabbIntersectsFrustum dist view planes zNear zFar b).isVisible = false
        ↔ minDistOf planes (viewBox view b).1 (viewBox view b).2 < 0) ∧
    ((∃ pl ∈ planes, ∀ p : Vec3,
        inBox (viewBox view b).1 (viewBox view b).2 p → planeDist pl p < 0) →
      (aabbIntersectsFrustum dist view planes zNear zFar b).isVisible = false) ∧
    ((∃ p : Vec3, inBox (viewBox view b).1 (viewBox view b).2 p ∧
        ∀ pl ∈ planes, 0 ≤ planeDist pl p) →
      (aabbIntersectsFrustum dist view planes zNear zFar b).isVisible = true) := by
  have hvis : (aabbIntersectsFrustum dist view planes zNear zFar b).isVisible
      = decide (0 ≤ minDistOf planes (viewBox view b).1 (viewBox view b).2) := rfl
  refine ⟨?_, ?_, ?_⟩
  · rw [hvis]
    simp [not_le]
  · rintro ⟨pl, hpl, hbehind⟩
    rw [hvis]
    have hprop := viewBox_proper view b
    have hposv := posVertex_inBox pl.n _ _ hprop
    have hlt := hbehind _ hposv
    have hle : minDistOf planes (viewBox view b).1 (viewBox view b).2
        ≤ planeDist pl (posVertex pl.n (viewBox view b).1 (viewBox view b).2) := by
      unfold minDistOf
      exact foldl_planeMin_le_mem _ _ planes pl hpl _
    simp only [decide_eq_false_iff_not, not_le]
    linarith
  · rintro ⟨p, hp, hall⟩
    rw [hvis]
    simp only [decide_eq_true_eq]
    unfold minDistOf
    refine foldl_planeMin_ge _ _ planes 0 fltMax (by norm_num [fltMax]) ?_
    intro pl hpl
    exact le_trans (hall pl hpl) (planeDist_le_posVertex pl _ _ p hp)

/-- Closed instance of C8: under the identity view with the single plane
    z at least 0, a degenerate AABB at z = -5 is culled and an AABB in
    z in [1, 2] is kept. -/
theorem c8_frustum_cull_witness :
    (aabbIntersectsFrustum (fun _ _ => 0)
        ⟨⟨1, 0, 0, 0⟩, ⟨0, 1, 0, 0⟩, ⟨0, 0, 1, 0⟩, ⟨0, 0, 0, 1⟩⟩
        [⟨⟨0, 0, 1⟩, 0⟩] 1 100
        { bb_min := ⟨0, 0, -5⟩, bb_max := ⟨0, 0, -5⟩ }).isVisible = false ∧
    (aabbIntersectsFrustum (fun _ _ => 0)
        ⟨⟨1, 0, 0, 0⟩, ⟨0, 1, 0, 0⟩, ⟨0, 0, 1, 0⟩, ⟨0, 0, 0, 1⟩⟩
        [⟨⟨0, 0, 1⟩, 0⟩] 1 100
        { bb_min := ⟨0, 0, 1⟩, bb_max := ⟨1, 1, 2⟩ }).isVisible = true := by
  constructor
  · apply (c8_frustum_cull _ _ _ _ _ _).2.1
    refine ⟨⟨⟨0, 0, 1⟩, 0⟩, by simp, ?_⟩
    intro p hp
    simp only [viewBox, cornersOf, transformPoint, dotRow, vmin, vmax, inBox,
      List.foldl] at hp
    norm_num [fltMax] at hp
    simp only [planeDist]
    linarith [hp.2.2.2.2.2]
  · apply (c8_frustum_cull _ _ _ _ _ _).2.2
    refine ⟨⟨0, 0, 1⟩, ?_, ?_⟩
    · simp only [viewBox, cornersOf, transformPoint, dotRow, vmin, vmax, inBox,
        List.foldl]
      norm_num [fltMax]
    · intro pl hpl
      simp only [List.mem_singleton] at hpl
      subst hpl
      norm_num [planeDist]

/- Slot-list access lemmas. -/

theorem getD_set_self (l : List Slot) (i : ℕ) (v d : Slot) (h : i < l.length) :
    (l.set i v).getD i d = v := by
  rw [List.getD_eq_getD_get?, List.get?_eq_getElem?, List.getElem?_set_eq_of_lt v h]
  rfl

theorem getD_set_ne (l : List Slot) (i j : ℕ) (v d : Slot) (h : i ≠ j) :
    (l.set i v).getD j d = l.getD j d := by
  rw [List.getD_eq_getD_get?, List.getD_eq_getD_get?, List.get?_eq_getElem?,
    List.get?_eq_getElem?, List.getElem?_set_ne h]

theorem findSlotIdx_spec (bid : ℤ) (l : List Slot) :
    ∀ j, findSlotIdx bid l = some j →
      j < l.length ∧ (l.getD j default).blockID = bid := by
  induction l with
  | nil => intro j h; cases h
  | cons s rest ih =>
      intro j h
      simp only [findSlotIdx] at h
      split at h
      next heq =>
        cases h
        exact ⟨Nat.succ_pos _, heq⟩
      next =>
        cases hr : findSlotIdx bid rest with
        | none => rw [hr] at h; cases h
        | some j2 =>
            rw [hr] at h
            cases h
            obtain ⟨h1, h2⟩ := ih j2 hr
            refine ⟨Nat.succ_lt_succ h1, ?_⟩
            simpa [List.getD] using h2

theorem extract_spec (c : SubslotsCache) (bid : ℤ) (pr : Slot × SubslotsCache)
    (h : c.extract bid = some pr) : pr.1.blockID = bid := by
  unfold SubslotsCache.extract at h
  cases hf : findSlotIdx bid c.slots with
  | none => rw [hf] at h; cases h
  | some j =>
      rw [hf] at h
      cases h
      exact (findSlotIdx_spec bid c.slots j hf).2

theorem swapSlots_length (l : List Slot) (a b : ℕ) :
    (swapSlots l a b).length = l.length := by
  unfold swapSlots
  simp

theorem swapSlots_getD_target (l : List Slot) (a b : ℕ) (hb : b < l.length) :
    (swapSlots l a b).getD b default = l.getD a default := by
  unfold swapSlots
  dsimp only
  rw [getD_set_self]
  simpa using hb

theorem swapSlots_getD_other (l : List Slot) (a b j : ℕ) (hja : j ≠ a) (hjb : j ≠ b) :
    (swapSlots l a b).getD j default = l.getD j default := by
  unfold swapSlots
  dsimp only
  rw [getD_set_ne _ _ _ _ _ (Ne.symm hjb), getD_set_ne _ _ _ _ _ (Ne.symm hja)]

/- updateSlotByBlockID lemmas. -/

theorem updateSlot_snd_length (slots : List Slot) (bid : ℤ) (t : ℕ) :
    (updateSlotByBlockID slots bid t).2.length = slots.length := by
  unfold updateSlotByBlockID
  cases hf : findSlotIdx bid slots with
  | none => rfl
  | some j => exact swapSlots_length slots j t

theorem updateSlot_found_getD (slots : List Slot) (bid : ℤ) (t : ℕ)
    (ht : t < slots.length) (h : (updateSlotByBlockID slots bid t).1 = true) :
    ((updateSlotByBlockID slots bid t).2.getD t default).blockID = bid := by
  unfold updateSlotByBlockID at h ⊢
  cases hf : findSlotIdx bid slots with
  | none => rw [hf] at h; cases h
  | some j =>
      dsimp only
      rw [swapSlots_getD_target slots j t ht]
      exact (findSlotIdx_spec bid slots j hf).2

theorem updateSlot_getD_other (slots : List Slot) (bid : ℤ) (t k : ℕ) (hk : k ≠ t)
    (hkbid : (slots.getD k default).blockID ≠ bid) :
    ((updateSlotByBlockID slots bid t).2.getD k default) = slots.getD k default := by
  unfold updateSlotByBlockID
  cases hf : findSlotIdx bid slots with
  | none => rfl
  | some j =>
      dsimp only
      have hj := findSlotIdx_spec bid slots j hf
      have hkj : k ≠ j := fun he => hkbid (he ▸ hj.2)
      exact swapSlots_getD_other slots j t k hkj hk

/- planStep lemmas. -/

theorem planStep_jobs_mono (iC : Bool) (npps : ℤ) (blocks : List Block)
    (s : PlanState) (i : ℕ) (j : Job) (h : j ∈ s.jobs) :
    j ∈ (planStep iC npps blocks s i).jobs := by
  unfold planStep
  dsimp only
  split
  · exact h
  · split
    · exact h
    · simp only [enqueueBlock, List.mem_append]
      exact Or.inl h

theorem planStep_slots_length (iC : Bool) (npps : ℤ) (blocks : List Block)
    (s : PlanState) (i : ℕ) :
    (planStep iC npps blocks s i).slots.length = s.slots.length := by
  unfold planStep
  dsimp only
  split
  · exact updateSlot_snd_length s.slots _ i
  · split
    · simp
    · rfl

theorem planStep_J (iC : Bool) (npps : ℤ) (blocks : List Block)
    (s : PlanState) (i : ℕ) (h : s.jobs.length = s.loadBlockCount) :
    (planStep iC npps blocks s i).jobs.length
      = (planStep iC npps blocks s i).loadBlockCount := by
  unfold planStep
  dsimp only
  split
  · exact h
  · split
    · exact h
    · simp [enqueueBlock, h]

theorem planStep_preserves_slotBound (iC : Bool) (npps : ℤ) (blocks : List Block)
    (s : PlanState) (i k : ℕ) (hk : k ≠ i)
    (hdiff : (blocks.getD k {}).blockID ≠ (blocks.getD i {}).blockID)
    (hP : slotBound blocks s k) :
    slotBound blocks (planStep iC npps blocks s i) k := by
  rcases hP with hbind | ⟨j, hj, hjk⟩
  · unfold planStep
    dsimp only
    split
    next hfound =>
      left
      dsimp only
      rw [updateSlot_getD_other s.slots _ i k hk (by rw [hbind]; exact hdiff)]
      exact hbind
    next =>
      split
      next er her =>
        left
        dsimp only
        rw [getD_set_ne _ _ _ _ _ (Ne.symm hk)]
        exact hbind
      next =>
        left
        exact hbind
  · exact Or.inr ⟨j, planStep_jobs_mono iC npps blocks s i j hj, hjk⟩

theorem planStep_establishes (iC : Bool) (npps : ℤ) (blocks : List Block)
    (s : PlanState) (i : ℕ) (hi : i < s.slots.length) :
    slotBound blocks (planStep iC npps blocks s i) i := by
  unfold planStep
  dsimp only
  split
  next hfound =>
    left
    dsimp only
    exact updateSlot_found_getD s.slots _ i hi hfound
  next =>
    split
    next er her =>
      left
      dsimp only
      rw [getD_set_self _ _ _ _ (by simpa using hi)]
      rcases hic : iC with _ | _
      · rw [hic] at her; simp at her
      · rw [hic] at her
        simp only [if_true] at her
        exact extract_spec s.subSlots _ er her
    next =>
      right
      refine ⟨{ blockID := (blocks.getD i {}).blockID,
                count := min (blocks.getD i {}).count npps,
                slotIdx := (i : ℤ), loadSubSlots := true,
                path := pathFor (blocks.getD i {}).blockID }, ?_, rfl⟩
      simp [enqueueBlock]

/- Plan-loop invariant. -/

theorem planLoop_invariant (iC : Bool) (npps : ℤ) (blocks : List Block) (limit : ℕ)
    (hdist : ∀ a b, a < limit → b < limit → a ≠ b →
      (blocks.getD a {}).blockID ≠ (blocks.getD b {}).blockID) :
    ∀ m, m ≤ limit → ∀ s : PlanState, limit ≤ s.slots.length →
      ((List.range m).foldl (planStep iC npps blocks) s).slots.length = s.slots.length ∧
      (∀ k, k < m →
        slotBound blocks ((List.range m).foldl (planStep iC npps blocks) s) k) := by
  intro m
  induction m with
  | zero =>
      intro _ s _
      exact ⟨rfl, fun k hk => absurd hk (Nat.not_lt_zero k)⟩
  | succ m ih =>
      intro hm s hs
      have hm2 : m ≤ limit := Nat.le_of_succ_le hm
      obtain ⟨ihlen, ihP⟩ := ih hm2 s hs
      rw [List.range_succ, List.foldl_append, List.foldl_cons, List.foldl_nil]
      constructor
      · rw [planStep_slots_length, ihlen]
      · intro k hk
        rcases Nat.lt_succ_iff_lt_or_eq.mp hk with hlt | heq
        · exact planStep_preserves_slotBound iC npps blocks _ m k (Nat.ne_of_lt hlt)
            (hdist k m (lt_of_lt_of_le hlt hm2) (Nat.lt_of_succ_le hm)
              (Nat.ne_of_lt hlt))
            (ihP k hlt)
        · subst heq
          exact planStep_establishes iC npps blocks _ k
            (by rw [ihlen]; exact lt_of_lt_of_le (Nat.lt_of_succ_le hm) hs)

theorem planLoop_J (iC : Bool) (npps : ℤ) (blocks : List Block) :
    ∀ (L : List ℕ) (s : PlanState), s.jobs.length = s.loadBlockCount →
      (L.foldl (planStep iC npps blocks) s).jobs.length
        = (L.foldl (planStep iC npps blocks) s).loadBlockCount := by
  intro L
  induction L with
  | nil => exact fun s h => h
  | cons i L ih =>
      intro s h
      rw [List.foldl_cons]
      exact ih _ (planStep_J iC npps blocks s i h)

/- Warmup-loop lemmas, by induction on the remaining block range. -/

theorem warmupLoop_props (npps : ℤ) (nss : ℕ) (blocks : List Block) :
    ∀ (fuel : ℕ) (s : PlanState) (i bI : ℕ), blocks.length - bI ≤ fuel →
      (warmupLoop npps nss blocks s i bI).slots = s.slots ∧
      (∀ j ∈ s.jobs, j ∈ (warmupLoop npps nss blocks s i bI).jobs) ∧
      (s.jobs.length = s.loadBlockCount →
        (warmupLoop npps nss blocks s i bI).jobs.length
          = (warmupLoop npps nss blocks s i bI).loadBlockCount) := by
  intro fuel
  induction fuel with
  | zero =>
      intro s i bI hle
      rw [warmupLoop, dif_neg (by omega)]
      exact ⟨rfl, fun j h => h, fun h => h⟩
  | succ n ih =>
      intro s i bI hle
      rw [warmupLoop]
      split
      next hcond =>
        dsimp only
        split
        · obtain ⟨w1, w2, w3⟩ := ih { s with
              subSlots := (s.subSlots.touch (blocks.getD bI {}).blockID).2 }
            (i + 1) (bI + 1) (by omega)
          exact ⟨w1, w2, w3⟩
        · obtain ⟨w1, w2, w3⟩ := ih { s with
              jobs := enqueueBlock s.jobs (blocks.getD bI {}).blockID (i : ℤ)
                (min (blocks.getD bI {}).count npps) false,
              loadBlockCount := s.loadBlockCount + 1 }
            (i + 1) (bI + 1) (by omega)
          refine ⟨w1, ?_, ?_⟩
          · intro j hj
            apply w2
            simp only [enqueueBlock, List.mem_append]
            exact Or.inl hj
          · intro h
            apply w3
            simp [enqueueBlock, h]
      next =>
        exact ⟨rfl, fun j h => h, fun h => h⟩

/-- C3: after the per-frame plan, every index below min(num_slots,
    visible_count) either has its slot bound to the block planned there or
    has a Job naming it enqueued during the plan.  The block ids of the
    planned prefix are assumed pairwise distinct, as in the spec's data
    model (with duplicated ids a later in-slot swap can steal an earlier
    binding). -/
theorem c3_slot_bind (isCache : Bool) (npps : ℤ) (numSubSlots visibleCount : ℕ)
    (blocks : List Block) (s0 : PlanState)
    (hdist : ∀ a b, a < min s0.slots.length visibleCount →
      b < min s0.slots.length visibleCount → a ≠ b →
      (blocks.getD a {}).blockID ≠ (blocks.getD b {}).blockID)
    (i : ℕ) (hi : i < min s0.slots.length visibleCount) :
    slotBound blocks
      (loadBlocksOOCPlan isCache npps numSubSlots visibleCount blocks s0) i := by
  unfold loadBlocksOOCPlan
  dsimp only
  have hinv := planLoop_invariant isCache npps blocks
    (min s0.slots.length visibleCount) hdist (min s0.slots.length visibleCount)
    (le_refl _) { s0 with loadBlockCount := 0, cacheMiss := 0 }
    (min_le_left _ _)
  obtain ⟨hlen, hP⟩ := hinv
  have hPi : slotBound blocks
      (planLoop isCache npps blocks { s0 with loadBlockCount := 0, cacheMiss := 0 }
        (min s0.slots.length visibleCount)) i := hP i hi
  split
  next hwarm =>
    obtain ⟨w1, w2, _⟩ := warmupLoop_props npps numSubSlots blocks blocks.length
      (planLoop isCache npps blocks { s0 with loadBlockCount := 0, cacheMiss := 0 }
        (min s0.slots.length visibleCount))
      0 (min s0.slots.length visibleCount) (by omega)
    rcases hPi with hbind | ⟨j, hj, hjk⟩
    · left
      show ((warmupLoop npps numSubSlots blocks
          (planLoop isCache npps blocks { s0 with loadBlockCount := 0, cacheMiss := 0 }
            (min s0.slots.length visibleCount))
          0 (min s0.slots.length visibleCount)).slots.getD i default).blockID = _
      rw [w1]
      exact hbind
    · exact Or.inr ⟨j, w2 j hj, hjk⟩
  next =>
    exact hPi

/-- Closed instance of C3: one visible block, one empty slot, cache off; the
    plan enqueues a Job for slot 0 or binds it. -/
theorem c3_slot_bind_witness :
    slotBound [{ blockID := 5, count := 3 }]
      (loadBlocksOOCPlan false 2 0 1 [{ blockID := 5, count := 3 }]
        ⟨[default], ⟨1, []⟩, [], 0, 0, true⟩) 0 :=
  c3_slot_bind false 2 0 1 [{ blockID := 5, count := 3 }]
    ⟨[default], ⟨1, []⟩, [], 0, 0, true⟩
    (by intro a b ha hb hne; exfalso; simp at ha hb; omega)
    0 (by simp)

/- Drain-loop lemmas. -/

theorem processResult_resultsQ (iC : Bool) (s : DrawState) (r : Result) :
    (processResult iC s r).resultsQ = s.resultsQ := by
  unfold processResult
  dsimp only
  split
  · rfl
  · rfl

theorem processResult_popped (iC : Bool) (s : DrawState) (r : Result) :
    (processResult iC s r).popped = s.popped := by
  unfold processResult
  dsimp only
  split
  · rfl
  · rfl

theorem drawLoop_drains (isCache : Bool) :
    ∀ (n : ℕ) (s : DrawState), s.resultsQ.length = n →
      ∃ d, drawLoop isCache s n = some d ∧ d.popped = s.popped + n ∧
        d.resultsQ = [] := by
  intro n
  induction n with
  | zero =>
      intro s h
      exact ⟨s, rfl, rfl, List.length_eq_zero.mp h⟩
  | succ n ih =>
      rintro ⟨sl, sc, q, pp⟩ h
      dsimp only at h
      cases q with
      | nil => simp at h
      | cons r rest =>
          simp only [List.length_cons, Nat.succ.injEq] at h
          obtain ⟨d, hd, hp, hres⟩ := ih
            (processResult isCache ⟨sl, sc, rest, pp + 1⟩ r)
            (by rw [processResult_resultsQ]; exact h)
          refine ⟨d, hd, ?_, hres⟩
          rw [hp, processResult_popped]
          dsimp only
          omega

/-- C9: the per-frame plan enqueues exactly loadBlockCount jobs; with one
    Result per job produced by the workers, the draw phase pops exactly that
    many Results and leaves the result queue empty, so issued jobs and drained
    Results balance each frame. -/
theorem c9_frame_balance (isCache : Bool) (npps : ℤ) (numSubSlots visibleCount : ℕ)
    (blocks : List Block) (s0 : PlanState) (h0 : s0.jobs = [])
    (fs : DiskFS) (r0 : Result) :
    (loadBlocksOOCPlan isCache npps numSubSlots visibleCount blocks s0).jobs.length
      = (loadBlocksOOCPlan isCache npps numSubSlots visibleCount blocks s0).loadBlockCount ∧
    ∀ ds : DrawState,
      ds.resultsQ = workerRun fs r0
        (loadBlocksOOCPlan isCache npps numSubSlots visibleCount blocks s0).jobs →
      ∃ d, drawLoop isCache ds
          (loadBlocksOOCPlan isCache npps numSubSlots visibleCount blocks s0).loadBlockCount
        = some d ∧
        d.popped = ds.popped
          + (loadBlocksOOCPlan isCache npps numSubSlots visibleCount blocks s0).loadBlockCount ∧
        d.resultsQ = [] := by
  have hJ : (loadBlocksOOCPlan isCache npps numSubSlots visibleCount blocks s0).jobs.length
      = (loadBlocksOOCPlan isCache npps numSubSlots visibleCount blocks s0).loadBlockCount := by
    unfold loadBlocksOOCPlan
    dsimp only
    have hstart : ({ s0 with loadBlockCount := 0, cacheMiss := 0 } : PlanState).jobs.length
        = ({ s0 with loadBlockCount := 0, cacheMiss := 0 } : PlanState).loadBlockCount := by
      dsimp only
      rw [h0]
      rfl
    have hloop := planLoop_J isCache npps blocks
      (List.range (min s0.slots.length visibleCount))
      { s0 with loadBlockCount := 0, cacheMiss := 0 } hstart
    split
    next hwarm =>
      obtain ⟨_, _, w3⟩ := warmupLoop_props npps numSubSlots blocks blocks.length
        (planLoop isCache npps blocks { s0 with loadBlockCount := 0, cacheMiss := 0 }
          (min s0.slots.length visibleCount))
        0 (min s0.slots.length visibleCount) (by omega)
      exact w3 hloop
    next =>
      exact hloop
  refine ⟨hJ, ?_⟩
  intro ds hds
  apply drawLoop_drains
  rw [hds]
  unfold workerRun
  rw [List.length_map]
  exact hJ

/-- Closed instance of C9 on an empty plan: zero jobs, zero Results. -/
theorem c9_frame_balance_witness :
    (loadBlocksOOCPlan false 0 0 0 [] ⟨[], ⟨0, []⟩, [], 0, 0, false⟩).jobs.length
      = (loadBlocksOOCPlan false 0 0 0 [] ⟨[], ⟨0, []⟩, [], 0, 0, false⟩).loadBlockCount ∧
    ∃ d, drawLoop false ⟨[], ⟨0, []⟩, [], 0⟩
        (loadBlocksOOCPlan false 0 0 0 [] ⟨[], ⟨0, []⟩, [], 0, 0, false⟩).loadBlockCount
      = some d ∧
      d.popped = (⟨[], ⟨0, []⟩, [], 0⟩ : DrawState).popped
        + (loadBlocksOOCPlan false 0 0 0 [] ⟨[], ⟨0, []⟩, [], 0, 0, false⟩).loadBlockCount ∧
      d.resultsQ = [] :=
  ⟨(c9_frame_balance false 0 0 0 [] ⟨[], ⟨0, []⟩, [], 0, 0, false⟩ rfl
      (fun _ => none) ⟨0, 0, 0, false, []⟩).1,
   (c9_frame_balance false 0 0 0 [] ⟨[], ⟨0, []⟩, [], 0, 0, false⟩ rfl
      (fun _ => none) ⟨0, 0, 0, false, []⟩).2 ⟨[], ⟨0, []⟩, [], 0⟩ rfl⟩

end Raster
